import Mathlib

/-!
Verification of the pinglow controller/scheduler/runner pipeline.

This file gives a shallow embedding, in Lean, of the parts of the pinglow
source that the checked claims are about:

* the data model (CheckSpec, PinglowCheck, CheckResult, ...) from
  src/check.rs and the pinglow crate;
* output/performance-data parsing and database-row construction
  (CheckResult::get_output, CheckResult::get_perf_data,
  CheckResult::write_to_db) from src/check.rs;
* the result consumer notification decision (process_check_result) from
  pinglow/src/lib.rs;
* the scheduler event handler and timer loop (handle_check_event,
  scheduler_loop) from pinglow/src/scheduler.rs, with the BTreeMap queue
  embedded as a key-sorted association list;
* the runner per-task execution and effect order (execute_check, run) from
  pinglow-runner/src/executor.rs and pinglow-runner/src/runner.rs;
* the reconciler secret fan-out (map_secret_to_checks) from
  src/controller.rs;
* the admin facade mute endpoint model mirror (mute_check) from
  pinglow/src/api.rs.

Machine integers (u64 intervals, i32/i16 status codes) are embedded as
Nat/Int; no arithmetic in the embedded code paths can overflow at the
values the claims exercise.  Monotonic instants and UTC timestamps are
embedded as Nat.  f32 performance values are embedded as exact rationals;
the decimal grammar accepted by the Rust float parser is modelled exactly,
while float rounding and the non-finite spellings (inf, nan) are outside
the rational model and are noted at the definition.
-/

/-- Status of a check result, from CheckResultStatus in src/check.rs. -/
inductive CheckResultStatus where
  | Ok
  | Warning
  | Critical
  | CheckError
  | Pending
deriving DecidableEq, Repr

/-- Integer code of a status, from CheckResultStatus::to_number (i16). -/
def CheckResultStatus.to_number : CheckResultStatus → Int
  | .Ok => 0
  | .Warning => 1
  | .Critical => 2
  | .CheckError => 3
  | .Pending => 4

/-- Decoding of an integer exit/status code, from impl From for
CheckResultStatus in src/check.rs (identical for i32 and i16). -/
def statusFromCode (value : Int) : CheckResultStatus :=
  if value = 0 then .Ok
  else if value = 1 then .Warning
  else if value = 2 then .Critical
  else if value = 4 then .Pending
  else .CheckError

/-- Script language, from ScriptLanguage in src/check.rs. -/
inductive ScriptLanguage where
  | Python
  | Bash
deriving DecidableEq, Repr

/-- Script payload, from ScriptSpec in src/check.rs. -/
structure ScriptSpec where
  language : ScriptLanguage
  content : String
  python_requirements : Option (List String)
deriving DecidableEq, Repr

/-- A resolved Telegram channel, from ConcreteTelegramChannel in src/check.rs. -/
structure ConcreteTelegramChannel where
  chat_id : String
  bot_token : String
deriving DecidableEq, Repr

/-- The hydrated check used by scheduler, runner and facade, from
PinglowCheck in src/check.rs.  Instants and timestamps are Nat. -/
structure PinglowCheck where
  passive : Bool
  script : Option ScriptSpec
  interval : Option Nat
  check_name : String
  secrets_refs : Option (List String)
  telegram_channels : List ConcreteTelegramChannel
  mute_notifications : Option Bool
  mute_notifications_until : Option Nat
deriving DecidableEq, Repr

/-- The artifact of one execution, from CheckResult in src/check.rs. -/
structure CheckResult where
  check_name : String
  output : String
  status : CheckResultStatus
  timestamp : Option Nat
  telegram_channels : List ConcreteTelegramChannel
  mute_notifications : Option Bool
  mute_notifications_until : Option Nat
deriving DecidableEq, Repr

/-- The raw declarative check spec, from CheckSpec in src/check.rs. -/
structure CheckSpec where
  scriptRef : Option String
  interval : Option Nat
  secretRefs : Option (List String)
  telegramChannelRefs : Option (List String)
  muteNotifications : Option Bool
  muteNotificationsUntil : Option Nat
  passive : Bool
deriving DecidableEq, Repr

/-- The Telegram channel declarative spec, from TelegramChannelSpec in
src/check.rs. -/
structure TelegramChannelSpec where
  chatId : String
  botTokenRef : String
deriving DecidableEq, Repr

/-! ### String helpers

The Rust standard library string operations used by the parsing code,
embedded structurally over lists of characters so that they compute by
kernel reduction. -/

/-- Rust str::split_once at the first character satisfying p: the part
before the first hit and the part after it, or none when no hit exists. -/
def splitOncePred (p : Char → Bool) : List Char → Option (List Char × List Char)
  | [] => none
  | c :: rest =>
    if p c then some ([], rest)
    else (splitOncePred p rest).map (fun ab => (c :: ab.1, ab.2))

/-- Rust str::split_once at the first occurrence of a single character. -/
def splitOnceChar (sep : Char) (cs : List Char) : Option (List Char × List Char) :=
  splitOncePred (fun c => c = sep) cs

/-- Rust str::split on a single-character separator: the empty string
yields one empty piece, and adjacent separators yield empty pieces. -/
def splitAllChar (sep : Char) : List Char → List (List Char)
  | [] => [[]]
  | c :: rest =>
    if c = sep then [] :: splitAllChar sep rest
    else
      match splitAllChar sep rest with
      | [] => [[c]]
      | g :: gs => (c :: g) :: gs

/-- Whitespace predicate used by Rust str::trim, restricted to the ASCII
whitespace characters; the further Unicode whitespace code points accepted
by Rust never occur in the inputs the claims exercise. -/
def isRustWhitespace (c : Char) : Bool :=
  c = ' ' || c = '\t' || c = '\n' || c = '\r' || c = Char.ofNat 11 || c = Char.ofNat 12

/-- Rust str::trim: drop whitespace from both ends. -/
def rustTrim (cs : List Char) : List Char :=
  ((cs.dropWhile isRustWhitespace).reverse.dropWhile isRustWhitespace).reverse

/-- Value of a digit string read in base 10. -/
def digitsToNat (l : List Char) : Nat :=
  l.foldl (fun a c => a * 10 + (c.toNat - 48)) 0

/-- Decimal components recognised by the f32 string parser: sign, integer
part, fractional digits with their count, and exponent. -/
structure FloatRepr where
  neg : Bool
  ip : Nat
  fp : Nat
  fpLen : Nat
  ex : Int
deriving DecidableEq, Repr

/-- Exact rational value of recognised decimal components. -/
def FloatRepr.toRat (f : FloatRepr) : ℚ :=
  (if f.neg then (-1 : ℚ) else 1) * ((f.ip : ℚ) + (f.fp : ℚ) / (10 : ℚ) ^ f.fpLen)
    * (10 : ℚ) ^ f.ex

/-- Grammar of the f32 string parser (str::parse): optional sign, then
either digits, digits point optional digits, or optional digits point
digits, then an optional exponent with its own optional sign and
mandatory digits.  The special non-finite spellings (inf, infinity, nan)
accepted by Rust have no rational counterpart and are not modelled.
No claim exercises that corner. -/
def rustParseFloatRepr (s : List Char) : Option FloatRepr :=
  let signAndRest : Bool × List Char :=
    match s with
    | '+' :: r => (false, r)
    | '-' :: r => (true, r)
    | r => (false, r)
  let sgn := signAndRest.1
  let body := signAndRest.2
  let mantAndExp : List Char × Option (List Char) :=
    match splitOncePred (fun c => c = 'e' || c = 'E') body with
    | some (m, e) => (m, some e)
    | none => (body, none)
  let mant := mantAndExp.1
  let expVal : Option Int :=
    match mantAndExp.2 with
    | none => some 0
    | some e =>
      let se : Bool × List Char :=
        match e with
        | '+' :: r => (false, r)
        | '-' :: r => (true, r)
        | r => (false, r)
      if se.2 ≠ [] && se.2.all Char.isDigit then
        some ((if se.1 then -1 else 1) * (digitsToNat se.2 : Int))
      else none
  match expVal with
  | none => none
  | some ex =>
    match splitOnceChar '.' mant with
    | none =>
      if mant ≠ [] && mant.all Char.isDigit then
        some ⟨sgn, digitsToNat mant, 0, 0, ex⟩
      else none
    | some (ip, fp) =>
      if (ip ≠ [] || fp ≠ []) && ip.all Char.isDigit && fp.all Char.isDigit then
        some ⟨sgn, digitsToNat ip, digitsToNat fp, fp.length, ex⟩
      else none

/-- The f32 string parser, modelled as grammar recognition followed by
exact rational evaluation (float rounding is not modelled). -/
def rustParseFloat (s : List Char) : Option ℚ :=
  (rustParseFloatRepr s).map FloatRepr.toRat

/-! ### Output parsing and database rows (CheckResult impl, src/check.rs) -/

/-- The perf blob of an output: the part after the first pipe character,
empty when the output has no pipe, from the common head of
CheckResult::get_output and CheckResult::get_perf_data. -/
def perfBlob (output : String) : List Char :=
  match splitOnceChar '|' output.data with
  | some (_, perf) => perf
  | none => []

/-- Human text of an output, from CheckResult::get_output: the part before
the first pipe character, or the whole output when no pipe is present. -/
def CheckResult.get_output (self : CheckResult) : String :=
  match splitOnceChar '|' self.output.data with
  | some (out, _) => String.mk out
  | none => self.output

/-- Recognition stage of CheckResult::get_perf_data: the perf blob split
on commas, each piece split once at the equals sign (pieces without one
are dropped), key and value trimmed, the value run through the f32
grammar.  Fully decidable. -/
def get_perf_data_parts (output : String) : List (String × Option FloatRepr) :=
  (splitAllChar ',' (perfBlob output)).filterMap (fun pair =>
    (splitOnceChar '=' pair).map (fun kv =>
      (String.mk (rustTrim kv.1), rustParseFloatRepr (rustTrim kv.2))))

/-- Performance pairs of an output, from CheckResult::get_perf_data: each
recognised value evaluated to its rational, with 0.0 substituted on parse
failure. -/
def CheckResult.get_perf_data (self : CheckResult) : List (String × ℚ) :=
  (get_perf_data_parts self.output).map (fun kv =>
    (kv.1, ((kv.2.map FloatRepr.toRat).getD 0)))

/-- One row of the check_result table. -/
structure CheckRow where
  timestamp : Nat
  check_name : String
  status : Int
  output : String
deriving DecidableEq, Repr

/-- One row of the check_result_perf_data table. -/
structure PerfRow where
  timestamp : Nat
  check_name : String
  perf_key : String
  perf_value : ℚ
deriving DecidableEq, Repr

/-- Database effect of CheckResult::write_to_db: exactly one check_result
row carrying the human text and the integer status code, plus one
check_result_perf_data row per perf pair, all at the result timestamp
(the current time when the result carries none). -/
def CheckResult.write_to_db (self : CheckResult) (now : Nat) : CheckRow × List PerfRow :=
  let output := self.get_output
  let perf_data_list := self.get_perf_data
  let timestamp := match self.timestamp with
    | some t => t
    | none => now
  (⟨timestamp, self.check_name, self.status.to_number, output⟩,
   perf_data_list.map (fun kv => ⟨timestamp, self.check_name, kv.1, kv.2⟩))

/-! ### Result consumer (process_check_result, pinglow/src/lib.rs) -/

/-- The notification gate of process_check_result: send when the status is
neither Ok nor Pending and, on mute_notifications = Some true, only when a
mute_notifications_until bound exists and has already passed. -/
def notifyGate (result : CheckResult) (now : Nat) : Bool :=
  !(result.status = CheckResultStatus.Ok : Bool)
    && !(result.status = CheckResultStatus.Pending : Bool)
    && (match result.mute_notifications with
        | some true =>
          match result.mute_notifications_until with
          | some u => decide (u ≤ now)
          | none => false
        | _ => true)

/-- Effect of process_check_result: the database rows written by
write_to_db, and the list of channels a Telegram message is posted to (the
message body formatting is elided; no claim depends on it).  When the gate
is closed no channel is posted to. -/
def process_check_result (result : CheckResult) (now : Nat) :
    (CheckRow × List PerfRow) × List ConcreteTelegramChannel :=
  let dbRows := result.write_to_db now
  let posts := if notifyGate result now then result.telegram_channels else []
  (dbRows, posts)

/-! ### Scheduler (pinglow/src/scheduler.rs)

The scheduler queue is a BTreeMap from Instant to ScheduledCheck, embedded
as an association list sorted by strictly increasing key, with the
BTreeMap insert semantics: inserting at an existing key replaces the value
stored there.  The shared active-check map (a HashMap behind a lock) is
embedded as an association list with insert-replaces-key semantics. -/

/-- A queued check, from ScheduledCheck in src/check.rs. -/
structure ScheduledCheck where
  check : PinglowCheck
  next_run : Nat
deriving DecidableEq, Repr

/-- The scheduler queue: key-sorted pairs of Instant and ScheduledCheck. -/
abbrev SchedQueue := List (Nat × ScheduledCheck)

/-- BTreeMap::insert on a key-sorted association list: place the pair at
its key position, replacing the entry already stored at an equal key. -/
def btInsert (k : Nat) (v : ScheduledCheck) : SchedQueue → SchedQueue
  | [] => [(k, v)]
  | (k', v') :: rest =>
    if k < k' then (k, v) :: (k', v') :: rest
    else if k = k' then (k, v) :: rest
    else (k', v') :: btInsert k v rest

/-- BTreeMap::extract_if consumed for one element: remove and return the
first entry, in key order, whose check carries the given name. -/
def extractFirstByName (n : String) : SchedQueue → Option ScheduledCheck × SchedQueue
  | [] => (none, [])
  | (k, sc) :: rest =>
    if sc.check.check_name = n then (some sc, rest)
    else
      match extractFirstByName n rest with
      | (r, q) => (r, (k, sc) :: q)

/-- The shared active-check map. -/
abbrev SharedChecks := List (String × PinglowCheck)

/-- HashMap::insert: the key now maps to the value, other keys unchanged. -/
def sharedInsert (n : String) (c : PinglowCheck) (m : SharedChecks) : SharedChecks :=
  (n, c) :: m.filter (fun e => e.1 ≠ n)

/-- HashMap::remove. -/
def sharedRemove (n : String) (m : SharedChecks) : SharedChecks :=
  m.filter (fun e => e.1 ≠ n)

/-- HashMap::contains_key. -/
def sharedContainsKey (m : SharedChecks) (n : String) : Bool :=
  m.any (fun e => e.1 = n)

/-- HashMap::get. -/
def sharedGet (m : SharedChecks) (n : String) : Option PinglowCheck :=
  (m.find? (fun e => e.1 = n)).map (fun e => e.2)

/-- Scheduler events, from RunnableCheckEvent in pinglow/src/scheduler.rs. -/
inductive RunnableCheckEvent where
  | addOrUpdate (check : PinglowCheck)
  | remove (check_name : String)
deriving DecidableEq, Repr

/-- Scheduler state: the time-ordered queue, owned by the scheduler loop,
and the shared active-check map. -/
structure SchedState where
  queue : SchedQueue
  shared : SharedChecks
deriving DecidableEq, Repr

/-- Event handler, from handle_check_event in pinglow/src/scheduler.rs.
AddOrUpdate upserts the shared entry, then returns at once for a passive
check or a check without interval; otherwise it removes the first queue
entry with this name, keeps that entry's next_run or computes now plus
interval when none existed, and inserts.  Remove drops the shared entry
and every queue entry with the name. -/
def handle_check_event (now : Nat) (event : RunnableCheckEvent) (s : SchedState) : SchedState :=
  match event with
  | .addOrUpdate check =>
    let shared := sharedInsert check.check_name check s.shared
    if check.passive then { s with shared := shared }
    else
      match check.interval with
      | none => { s with shared := shared }
      | some interval =>
        let rq := extractFirstByName check.check_name s.queue
        let next_run := match rq.1 with
          | some removed => removed.next_run
          | none => now + interval
        { queue := btInsert next_run { check := check, next_run := next_run } rq.2,
          shared := shared }
  | .remove check_name =>
    { queue := s.queue.filter (fun e => e.2.check.check_name ≠ check_name),
      shared := sharedRemove check_name s.shared }

/-- One pass of the timer branch of scheduler_loop (the sleep arm of the
select): the loop snapshots the earliest queue entry and sleeps until its
next_run has elapsed, so this step fires only when now has reached the
head key.  It then discards the fire when the name has left the shared
map or the snapshot has no interval; otherwise it removes every queue
entry with the name, publishes the task, and re-inserts the snapshot with
next_run advanced by exactly the snapshot interval.  The publication is
returned as the pair of the fired next_run and the published check. -/
def fireStep (now : Nat) (s : SchedState) : SchedState × Option (Nat × PinglowCheck) :=
  match s.queue with
  | [] => (s, none)
  | (k, sc) :: _ =>
    if now < k then (s, none)
    else if ¬ sharedContainsKey s.shared sc.check.check_name then (s, none)
    else
      match sc.check.interval with
      | none => (s, none)
      | some interval =>
        let queue := s.queue.filter (fun e => e.2.check.check_name ≠ sc.check.check_name)
        ({ queue := btInsert (sc.next_run + interval)
              { sc with next_run := sc.next_run + interval } queue,
           shared := s.shared },
         some (sc.next_run, sc.check))

/-- A step of the scheduler loop: either a received event is handled, or
the sleep arm fires.  The time field is the value of Instant::now when
the step runs. -/
inductive SchedOp where
  | ev (e : RunnableCheckEvent)
  | fire
deriving DecidableEq, Repr

/-- A scheduler loop step together with its wall-clock instant. -/
structure TimedOp where
  t : Nat
  op : SchedOp
deriving DecidableEq, Repr

/-- Execution of a list of scheduler loop steps from a state, collecting
the tasks published to the task stream together with the next_run each
was fired at. -/
def schedRun (s : SchedState) : List TimedOp → List (Nat × PinglowCheck)
  | [] => []
  | o :: rest =>
    match o.op with
    | .ev e => schedRun (handle_check_event o.t e s) rest
    | .fire =>
      match fireStep o.t s with
      | (s', p) => p.toList ++ schedRun s' rest

/-- The next_run values of the tasks published for one check name, in
publication order. -/
def pubsFor (n : String) (ps : List (Nat × PinglowCheck)) : List Nat :=
  ps.filterMap (fun p => if p.2.check_name = n then some p.1 else none)

/-- Time stamps of a step list are non-decreasing. -/
def timesSorted : List TimedOp → Bool
  | [] => true
  | [_] => true
  | a :: b :: r => a.t ≤ b.t && timesSorted (b :: r)

/-- Trace hypothesis for one check name: every AddOrUpdate event carried
for that name is non-passive with the given fixed interval. -/
def addEventOk (n : String) (interval : Nat) (o : TimedOp) : Bool :=
  match o.op with
  | .ev (.addOrUpdate c) =>
    if c.check_name = n then !c.passive && (c.interval = some interval : Bool) else true
  | _ => true

/-! ### Runner (pinglow-runner/src/executor.rs and pinglow-runner/src/runner.rs) -/

/-- The error forms execute_check can return, from
pinglow-common error types and the anyhow bail sites in executor.rs:
missing script, filesystem failure, venv creation failure, dependency
installation failure, missing exit code, non-UTF-8 stdout. -/
inductive ExecError where
  | noScriptFound (check_name : String)
  | ioError (msg : String)
  | venvError (msg : String)
  | pipError (msg : String)
  | exitCodeError (msg : String)
  | utf8Error
deriving DecidableEq, Repr

/-- Outcomes of the external actions execute_check performs, supplied as
an environment: directory and file writes, the venv creation command, the
dependency installation command, and the script process itself. -/
structure ExecEnv where
  fs_ok : Bool
  venv_ok : Bool
  venv_out : String
  pip_ok : Bool
  pip_out : String
  run_exit_code : Option Int
  run_stdout : String
  stdout_utf8_ok : Bool
  now : Nat
deriving DecidableEq, Repr

/-- Per-task execution, from execute_check in
pinglow-runner/src/executor.rs: fail when the task carries no script;
create the working directory and write the script (filesystem errors
propagate); create the venv, failing on non-zero exit; install declared
requirements, failing on non-zero exit; run the script, mapping the exit
code through the status table and failing when no exit code exists; wrap
stdout, status, the current time and the carried notification and mute
fields into a CheckResult.  Secret fetching and injection only shape the
child process environment and produce no result fields, so they are not
modelled. -/
def execute_check (check : PinglowCheck) (env : ExecEnv) : Except ExecError CheckResult :=
  match check.script with
  | none => .error (.noScriptFound check.check_name)
  | some script =>
    if ¬ env.fs_ok then .error (.ioError "filesystem error")
    else if ¬ env.venv_ok then .error (.venvError env.venv_out)
    else
      match (match script.python_requirements with
             | some _ => if env.pip_ok then Except.ok () else .error (ExecError.pipError env.pip_out)
             | none => Except.ok ()) with
      | .error e => .error e
      | .ok _ =>
        match env.run_exit_code with
        | none => .error (.exitCodeError "Cannot extract exit code")
        | some code =>
          if ¬ env.stdout_utf8_ok then .error .utf8Error
          else
            .ok { check_name := check.check_name,
                  output := env.run_stdout,
                  status := statusFromCode code,
                  timestamp := some env.now,
                  telegram_channels := check.telegram_channels,
                  mute_notifications := check.mute_notifications,
                  mute_notifications_until := check.mute_notifications_until }

/-- Observable actions of the spawned per-task block of the runner loop. -/
inductive RunnerEffect where
  | logError (msg : String)
  | xack (id : String)
  | xadd (result : CheckResult)
deriving DecidableEq, Repr

/-- Environment of the spawned per-task block: the execution environment,
whether the fresh redis connection is obtained, and whether the result
serializes. -/
structure RunnerEnv where
  exec : ExecEnv
  conn_ok : Bool
  serialize_ok : Bool
deriving DecidableEq, Repr

/-- The spawned per-task block of the runner loop, from run in
pinglow-runner/src/runner.rs, as its ordered list of effects: on an
execution error it logs and returns at once; otherwise it obtains a
connection (logging and returning on failure), issues XACK for the task
id on the tasks stream (an XACK transport error is only logged), then
serializes the result (logging and returning on failure) and issues XADD
of the payload on the results stream. -/
def runner_task (id : String) (check : PinglowCheck) (env : RunnerEnv) : List RunnerEffect :=
  match execute_check check env.exec with
  | .error _ => [.logError "Error executing check"]
  | .ok result =>
    if ¬ env.conn_ok then [.logError "Error getting connection to redis"]
    else
      [RunnerEffect.xack id] ++
        (if env.serialize_ok then [RunnerEffect.xadd result]
         else [RunnerEffect.logError "Error serializing check result"])

/-! ### Reconciler secret fan-out (src/controller.rs) -/

/-- Fan-out of a Secret event, from map_secret_to_checks in
src/controller.rs: the secret name (empty when the object carries none)
is matched against each model entry's secretRefs list; entries without a
secretRefs list never match.  The returned object references are
represented by the check names. -/
def map_secret_to_checks (secretMetaName : Option String)
    (shared_original_checks : List (String × CheckSpec)) : List String :=
  let secret_name := secretMetaName.getD ""
  shared_original_checks.filterMap (fun entry =>
    match entry.2.secretRefs with
    | none => none
    | some refs => if refs.any (fun s => s = secret_name) then some entry.1 else none)

/-- The fan-out the claim describes, stated from the specification words:
a Secret event maps to all checks listing it in secretRefs or whose
referenced channel's botTokenRef matches.  Used only to compare the code
fan-out against the claimed one. -/
def claimedSecretFanout (secretMetaName : Option String)
    (channels : List (String × TelegramChannelSpec))
    (shared_original_checks : List (String × CheckSpec)) : List String :=
  let secret_name := secretMetaName.getD ""
  shared_original_checks.filterMap (fun entry =>
    let inSecretRefs := (entry.2.secretRefs.getD []).any (fun s => s = secret_name)
    let viaChannel := (entry.2.telegramChannelRefs.getD []).any (fun chName =>
      (channels.find? (fun ch => ch.1 = chName)).elim false
        (fun ch => ch.2.botTokenRef = secret_name))
    if inSecretRefs || viaChannel then some entry.1 else none)

/-! ### Admin facade mute endpoint (pinglow/src/api.rs) -/

/-- Model mirror of the mute endpoint, from mute_check in
pinglow/src/api.rs: 404 when the target is unknown; when an until query
parameter is present it must parse as RFC3339 (400 otherwise) — the
chrono parser is passed in as a function, the claim only exercises the
absent-parameter path; the upstream patch is external; then the model
entry is re-read, cloned with mute_notifications set to Some true and,
only when an until value was parsed, mute_notifications_until set to it,
and stored back. -/
def mute_check (parseRfc3339 : String → Option Nat) (target_check : String)
    (untilParam : Option String) (runnable_checks : SharedChecks) :
    Except String SharedChecks :=
  if ¬ sharedContainsKey runnable_checks target_check then .error "Invalid target check"
  else
    match (match untilParam with
           | none => Except.ok (none : Option Nat)
           | some s =>
             match parseRfc3339 s with
             | some d => Except.ok (some d)
             | none => .error "Invalid datetime format") with
    | .error e => .error e
    | .ok until_date_time =>
      match sharedGet runnable_checks target_check with
      | none => .ok runnable_checks
      | some check =>
        let modified := { check with
          mute_notifications := some true,
          mute_notifications_until :=
            match until_date_time with
            | some d => some d
            | none => check.mute_notifications_until }
        .ok (sharedInsert target_check modified runnable_checks)

/-! ### Claims -/

/-- Claim C1: in process_check_result a Telegram notification is posted to
exactly the carried channels, and only when the status is neither Ok nor
Pending and the mute predicate does not suppress it, suppression holding
exactly when mute_notifications is true and the until bound is absent or
still in the future. -/
theorem notification_emission_iff (result : CheckResult) (now : Nat)
    (ch : ConcreteTelegramChannel) :
    ch ∈ (process_check_result result now).2 ↔
      (ch ∈ result.telegram_channels ∧
       result.status ≠ CheckResultStatus.Ok ∧ result.status ≠ CheckResultStatus.Pending ∧
       ¬ (result.mute_notifications = some true ∧
          (result.mute_notifications_until = none ∨
           ∃ u, result.mute_notifications_until = some u ∧ now < u))) := by
  rcases result with ⟨name, out, status, ts, chans, mn, mu⟩
  simp only [process_check_result, notifyGate]
  rcases mn with _ | b
  · cases status <;> simp
  · cases b
    · cases status <;> simp
    · rcases mu with _ | u
      · cases status <;> simp
      · by_cases h : u ≤ now <;> cases status <;> simp [h]

/-- If no character of the list satisfies the predicate, split_once finds
nothing. -/
theorem splitOncePred_eq_none {p : Char → Bool} : ∀ {cs : List Char},
    (∀ c ∈ cs, p c = false) → splitOncePred p cs = none := by
  intro cs
  induction cs with
  | nil => intro _; rfl
  | cons c rest ih =>
    intro h
    simp only [splitOncePred]
    rw [h c (by simp), ih (fun c hc => h c (by simp [hc]))]
    rfl

/-- Claim C7: result output parsing.  Without a pipe character the perf
blob is empty and yields no perf rows; empty output yields empty human
text and no perf rows; and the output text-pipe-k-equals-one-comma-k2-
equals-bad produces the single result row with output text and exactly
the two perf rows with rational values one and zero. -/
theorem output_parsing (r : CheckResult) (now : Nat) :
    (('|' ∉ r.output.data) → r.get_perf_data = []) ∧
    (r.output = "" → r.get_output = "" ∧ r.get_perf_data = []) ∧
    (r.output = "text|k=1,k2=bad" →
      (r.write_to_db now).1.output = "text" ∧
      (r.write_to_db now).2.map (fun p => (p.perf_key, p.perf_value)) =
        [("k", (1 : ℚ)), ("k2", 0)]) := by
  refine ⟨?_, ?_, ?_⟩
  · intro h
    have hnone : splitOnceChar '|' r.output.data = none := by
      apply splitOncePred_eq_none
      intro c hc
      simp only [decide_eq_false_iff_not]
      exact fun e => h (e ▸ hc)
    have hblob : perfBlob r.output = [] := by
      unfold perfBlob
      rw [hnone]
    simp [CheckResult.get_perf_data, get_perf_data_parts, hblob, splitAllChar,
      splitOnceChar, splitOncePred]
  · intro h
    have hnone : splitOnceChar '|' ("" : String).data = none := rfl
    constructor
    · simp [CheckResult.get_output, h, hnone]
    · simp [CheckResult.get_perf_data, get_perf_data_parts, perfBlob, h, hnone, splitAllChar,
        splitOnceChar, splitOncePred]
  · intro h
    have hso : splitOnceChar '|' ("text|k=1,k2=bad" : String).data =
        some (("text" : String).data, ("k=1,k2=bad" : String).data) := by decide
    have hparts : get_perf_data_parts "text|k=1,k2=bad" =
        [("k", some ⟨false, 1, 0, 0, 0⟩), ("k2", none)] := by decide
    constructor
    · simp [CheckResult.write_to_db, CheckResult.get_output, h, hso]
    · simp [CheckResult.write_to_db, CheckResult.get_perf_data, h, hparts, FloatRepr.toRat]

/-- Witness for claim C7 at concrete results. -/
theorem output_parsing_witness :
    (CheckResult.get_perf_data ⟨"c", "plain output", .Ok, none, [], none, none⟩ = []) ∧
    (CheckResult.get_output ⟨"c", "", .Ok, none, [], none, none⟩ = "" ∧
      CheckResult.get_perf_data ⟨"c", "", .Ok, none, [], none, none⟩ = []) ∧
    ((CheckResult.write_to_db ⟨"c", "text|k=1,k2=bad", .Critical, some 5, [], none, none⟩ 9).1.output
        = "text" ∧
      (CheckResult.write_to_db ⟨"c", "text|k=1,k2=bad", .Critical, some 5, [], none, none⟩ 9).2.map
          (fun p => (p.perf_key, p.perf_value)) = [("k", (1 : ℚ)), ("k2", 0)]) :=
  ⟨(output_parsing ⟨"c", "plain output", .Ok, none, [], none, none⟩ 0).1 (by decide),
   (output_parsing ⟨"c", "", .Ok, none, [], none, none⟩ 0).2.1 rfl,
   (output_parsing ⟨"c", "text|k=1,k2=bad", .Critical, some 5, [], none, none⟩ 9).2.2 rfl⟩

/-- A successful HashMap get implies contains_key. -/
theorem sharedGet_contains {m : SharedChecks} {n : String} {c : PinglowCheck}
    (h : sharedGet m n = some c) : sharedContainsKey m n = true := by
  unfold sharedGet at h
  rcases Option.map_eq_some'.mp h with ⟨e, he, _⟩
  have hm := List.mem_of_find?_eq_some he
  have hp := List.find?_some he
  unfold sharedContainsKey
  rw [List.any_eq_true]
  exact ⟨e, hm, hp⟩

/-- Claim C10: a mute request without an until parameter on a known check
rewrites the model entry with mute_notifications set to true and every
other field, the previously stored mute_notifications_until included,
unchanged. -/
theorem mute_without_until_frame (parseRfc3339 : String → Option Nat)
    (runnable_checks : SharedChecks) (target_check : String) (check : PinglowCheck)
    (h : sharedGet runnable_checks target_check = some check) :
    ∃ modified,
      mute_check parseRfc3339 target_check none runnable_checks =
        .ok (sharedInsert target_check modified runnable_checks) ∧
      modified.mute_notifications = some true ∧
      modified.mute_notifications_until = check.mute_notifications_until ∧
      modified.passive = check.passive ∧
      modified.script = check.script ∧
      modified.interval = check.interval ∧
      modified.check_name = check.check_name ∧
      modified.secrets_refs = check.secrets_refs ∧
      modified.telegram_channels = check.telegram_channels := by
  refine ⟨{ check with mute_notifications := some true }, ?_, rfl, rfl, rfl, rfl, rfl, rfl,
    rfl, rfl⟩
  unfold mute_check
  rw [sharedGet_contains h]
  simp [h]

/-- Witness for claim C10: a check muted earlier until instant 99 keeps
that stale bound when muted again without an until parameter. -/
theorem mute_without_until_frame_witness :
    sharedGet [("c1", ⟨false, none, some 5, "c1", none, [], some true, some 99⟩)] "c1" =
      some ⟨false, none, some 5, "c1", none, [], some true, some 99⟩ ∧
    ∃ modified,
      mute_check (fun _ => none) "c1" none
          [("c1", ⟨false, none, some 5, "c1", none, [], some true, some 99⟩)] =
        .ok (sharedInsert "c1" modified
          [("c1", ⟨false, none, some 5, "c1", none, [], some true, some 99⟩)]) ∧
      modified.mute_notifications = some true ∧
      modified.mute_notifications_until = some 99 ∧
      modified.passive = false ∧
      modified.script = none ∧
      modified.interval = some 5 ∧
      modified.check_name = "c1" ∧
      modified.secrets_refs = none ∧
      modified.telegram_channels = [] :=
  ⟨rfl, mute_without_until_frame (fun _ => none)
    [("c1", ⟨false, none, some 5, "c1", none, [], some true, some 99⟩)] "c1"
    ⟨false, none, some 5, "c1", none, [], some true, some 99⟩ rfl⟩

/-- Counterexample to claim C4: a check that references the secret only
through its Telegram channel's botTokenRef is selected by the claimed
fan-out but not by map_secret_to_checks, which consults secretRefs alone. -/
theorem secret_fanout_counterexample :
    map_secret_to_checks (some "s")
        [("c1", ⟨none, some 5, none, some ["ch"], none, none, false⟩)] = [] ∧
    claimedSecretFanout (some "s") [("ch", ⟨"42", "s"⟩)]
        [("c1", ⟨none, some 5, none, some ["ch"], none, none, false⟩)] = ["c1"] := by
  constructor <;> decide

/-- Claim C4 amended: for every Secret event the fan-out selects exactly
the checks whose secretRefs list contains the secret's name; a reference
through a channel's botTokenRef is not considered. -/
theorem secret_fanout_selects_secretRefs (secretMetaName : Option String)
    (shared_original_checks : List (String × CheckSpec)) (name : String) :
    name ∈ map_secret_to_checks secretMetaName shared_original_checks ↔
      ∃ spec, (name, spec) ∈ shared_original_checks ∧
        ∃ refs, spec.secretRefs = some refs ∧ secretMetaName.getD "" ∈ refs := by
  unfold map_secret_to_checks
  rw [List.mem_filterMap]
  constructor
  · rintro ⟨⟨a, spec⟩, hmem, hf⟩
    rcases hrefs : spec.secretRefs with _ | refs <;> rw [hrefs] at hf
    · simp at hf
    · simp only [List.any_eq_true, decide_eq_true_eq] at hf
      by_cases hany : ∃ x ∈ refs, x = secretMetaName.getD ""
      · rw [if_pos hany] at hf
        have ha : a = name := by simpa using hf
        subst ha
        rcases hany with ⟨x, hx, hxe⟩
        exact ⟨spec, hmem, refs, hrefs, hxe ▸ hx⟩
      · rw [if_neg hany] at hf
        exact absurd hf (by simp)
  · rintro ⟨spec, hmem, refs, hrefs, hin⟩
    refine ⟨(name, spec), hmem, ?_⟩
    rw [hrefs]
    simp only [List.any_eq_true, decide_eq_true_eq]
    rw [if_pos ⟨_, hin, rfl⟩]

/-- Claim C2, evaluated at the failing input: handling AddOrUpdate of the
passive version of check c1 leaves the queue entry left over from the
previous non-passive version in place (the handler returns before
touching the queue), and a later timer fire still publishes a task from
that stale entry, so the queue does hold an entry for a passive check. -/
theorem passive_update_keeps_stale_queue_entry :
    (handle_check_event 10
        (.addOrUpdate ⟨true, none, some 5, "c1", none, [], none, none⟩)
        ⟨[(5, ⟨⟨false, none, some 5, "c1", none, [], none, none⟩, 5⟩)],
         [("c1", ⟨false, none, some 5, "c1", none, [], none, none⟩)]⟩).queue =
      [(5, ⟨⟨false, none, some 5, "c1", none, [], none, none⟩, 5⟩)] ∧
    (fireStep 11
        (handle_check_event 10
          (.addOrUpdate ⟨true, none, some 5, "c1", none, [], none, none⟩)
          ⟨[(5, ⟨⟨false, none, some 5, "c1", none, [], none, none⟩, 5⟩)],
           [("c1", ⟨false, none, some 5, "c1", none, [], none, none⟩)]⟩)).2 =
      some (5, ⟨false, none, some 5, "c1", none, [], none, none⟩) := by
  constructor <;> decide

/-- Claim C3, evaluated at the failing inputs: a task without a script
makes execute_check return the NoScriptFound error, and the runner's
per-task block then only logs — no synthetic CheckError result is
published and the task is never acknowledged.  A venv creation failure
behaves the same way. -/
theorem execution_failure_produces_no_result :
    execute_check ⟨false, none, some 5, "c3", none, [], none, none⟩
        ⟨true, true, "", true, "", some 0, "", true, 7⟩ =
      .error (.noScriptFound "c3") ∧
    runner_task "1-0" ⟨false, none, some 5, "c3", none, [], none, none⟩
        ⟨⟨true, true, "", true, "", some 0, "", true, 7⟩, true, true⟩ =
      [.logError "Error executing check"] ∧
    execute_check
        ⟨false, some ⟨.Python, "print(1)", none⟩, some 5, "c3", none, [], none, none⟩
        ⟨true, false, "venv failed", true, "", some 0, "", true, 7⟩ =
      .error (.venvError "venv failed") ∧
    runner_task "1-1"
        ⟨false, some ⟨.Python, "print(1)", none⟩, some 5, "c3", none, [], none, none⟩
        ⟨⟨true, false, "venv failed", true, "", some 0, "", true, 7⟩, true, true⟩ =
      [.logError "Error executing check"] :=
  ⟨rfl, by decide, rfl, by decide⟩

/-- The inserted pair is a member of the queue after btInsert. -/
theorem self_mem_btInsert (k : Nat) (v : ScheduledCheck) :
    ∀ q : SchedQueue, (k, v) ∈ btInsert k v q := by
  intro q
  induction q with
  | nil => simp [btInsert]
  | cons e rest ih =>
    rcases e with ⟨k', v'⟩
    unfold btInsert
    by_cases h1 : k < k'
    · simp [h1]
    · by_cases h2 : k = k'
      · simp [h1, h2]
      · simp [h1, h2, ih]

/-- Members of a queue after btInsert are the inserted pair or prior
members. -/
theorem mem_btInsert {e : Nat × ScheduledCheck} {k : Nat} {v : ScheduledCheck} :
    ∀ {q : SchedQueue}, e ∈ btInsert k v q → e = (k, v) ∨ e ∈ q := by
  intro q
  induction q with
  | nil => simp [btInsert]
  | cons hd rest ih =>
    rcases hd with ⟨k', v'⟩
    unfold btInsert
    by_cases h1 : k < k'
    · intro h
      simp [h1] at h
      rcases h with h | h | h
      · exact Or.inl (by simp [h])
      · exact Or.inr (by simp [h])
      · exact Or.inr (by simp [h])
    · by_cases h2 : k = k'
      · intro h
        simp [h1, h2] at h
        rcases h with h | h
        · exact Or.inl (by simp [h, h2])
        · exact Or.inr (by simp [h])
      · intro h
        simp [h1, h2] at h
        rcases h with h | h
        · exact Or.inr (by simp [h])
        · rcases ih h with h' | h'
          · exact Or.inl h'
          · exact Or.inr (by simp [h'])

/-- On a key-sorted queue, btInsert replaces the entry at an equal key:
every member is the inserted pair or a prior member at a different key. -/
theorem mem_btInsert_sorted {k : Nat} {v : ScheduledCheck} :
    ∀ {q : SchedQueue}, List.Pairwise (fun a b => a.1 < b.1) q →
      ∀ {e : Nat × ScheduledCheck}, e ∈ btInsert k v q →
        e = (k, v) ∨ (e ∈ q ∧ e.1 ≠ k) := by
  intro q
  induction q with
  | nil =>
    intro _ e h
    simp [btInsert] at h
    exact Or.inl (by simp [h])
  | cons hd rest ih =>
    rcases hd with ⟨k', v'⟩
    intro hs e h
    have hs' : List.Pairwise (fun a b => a.1 < b.1) rest := (List.pairwise_cons.mp hs).2
    have hlt : ∀ b ∈ rest, k' < b.1 := (List.pairwise_cons.mp hs).1
    unfold btInsert at h
    by_cases h1 : k < k'
    · simp [h1] at h
      rcases h with h | h | h
      · exact Or.inl (by simp [h])
      · exact Or.inr ⟨by simp [h], by simp [h]; omega⟩
      · refine Or.inr ⟨by simp [h], ?_⟩
        have := hlt e h
        omega
    · by_cases h2 : k = k'
      · simp [h1, h2] at h
        rcases h with h | h
        · exact Or.inl (by simp [h, h2])
        · refine Or.inr ⟨by simp [h], ?_⟩
          have := hlt e h
          omega
      · simp [h1, h2] at h
        rcases h with h | h
        · exact Or.inr ⟨by simp [h], by simp [h]; omega⟩
        · rcases ih hs' h with h' | h'
          · exact Or.inl h'
          · exact Or.inr ⟨by simp [h'.1], h'.2⟩

/-- Entries surviving extract_if are prior members. -/
theorem mem_extractFirstByName {n : String} :
    ∀ {q : SchedQueue} {e : Nat × ScheduledCheck},
      e ∈ (extractFirstByName n q).2 → e ∈ q := by
  intro q
  induction q with
  | nil => intro e h; simp [extractFirstByName] at h
  | cons hd rest ih =>
    rcases hd with ⟨k, sc⟩
    intro e h
    unfold extractFirstByName at h
    by_cases hn : sc.check.check_name = n
    · simp [hn] at h
      simp [h]
    · simp [hn] at h
      rcases h with h | h
      · simp [h]
      · simp [ih h]

/-- A removed entry was a prior member, at its own next_run as the key
never being needed, with the searched name. -/
theorem extractFirstByName_some {n : String} :
    ∀ {q : SchedQueue} {sc : ScheduledCheck},
      (extractFirstByName n q).1 = some sc →
        sc.check.check_name = n ∧ ∃ k, (k, sc) ∈ q := by
  intro q
  induction q with
  | nil => intro sc h; simp [extractFirstByName] at h
  | cons hd rest ih =>
    rcases hd with ⟨k, sc'⟩
    intro sc h
    unfold extractFirstByName at h
    by_cases hn : sc'.check.check_name = n
    · simp [hn] at h
      exact ⟨h ▸ hn, k, by simp [h]⟩
    · simp [hn] at h
      rcases ih h with ⟨h1, k', h2⟩
      exact ⟨h1, k', by simp [h2]⟩

/-- When no entry carries the name, extract_if removes nothing. -/
theorem extractFirstByName_no_match {n : String} :
    ∀ {q : SchedQueue}, (∀ e ∈ q, e.2.check.check_name ≠ n) →
      extractFirstByName n q = (none, q) := by
  intro q
  induction q with
  | nil => intro _; rfl
  | cons hd rest ih =>
    rcases hd with ⟨k, sc⟩
    intro h
    unfold extractFirstByName
    rw [if_neg (h (k, sc) (by simp))]
    rw [ih (fun e he => h e (by simp [he]))]

/-- Claim C6: on AddOrUpdate of a non-passive check with an interval, the
handler inserts a queue entry for the check whose next_run is the removed
prior entry's next_run when one existed, and now plus interval otherwise. -/
theorem addOrUpdate_next_run (c : PinglowCheck) (i now : Nat) (s : SchedState)
    (hp : c.passive = false) (hi : c.interval = some i) :
    (∀ sc, (extractFirstByName c.check_name s.queue).1 = some sc →
      (sc.next_run, ⟨c, sc.next_run⟩) ∈
        (handle_check_event now (.addOrUpdate c) s).queue) ∧
    ((extractFirstByName c.check_name s.queue).1 = none →
      (now + i, ⟨c, now + i⟩) ∈
        (handle_check_event now (.addOrUpdate c) s).queue) := by
  constructor
  · intro sc hsc
    simp only [handle_check_event, hp, hi, Bool.false_eq_true, if_false, hsc]
    exact self_mem_btInsert _ _ _
  · intro hn
    simp only [handle_check_event, hp, hi, Bool.false_eq_true, if_false, hn]
    exact self_mem_btInsert _ _ _

/-- Claim C9: the queue is keyed solely by next_run.  When an AddOrUpdate
for a second check computes a next_run equal to the key of the sole queue
entry of a first, differently named check, the insert replaces that entry,
so no entry for the first check remains while the second check's entry sits
at the shared key. -/
theorem equal_next_run_insert_replaces (q : SchedQueue) (sh : SharedChecks)
    (t now i : Nat) (sc1 : ScheduledCheck) (c2 : PinglowCheck)
    (hwf : List.Pairwise (fun a b => a.1 < b.1) q)
    (hmem : (t, sc1) ∈ q)
    (hname : sc1.check.check_name ≠ c2.check_name)
    (honly : ∀ e ∈ q, e.2.check.check_name = sc1.check.check_name → e = (t, sc1))
    (hno2 : ∀ e ∈ q, e.2.check.check_name ≠ c2.check_name)
    (hp : c2.passive = false) (hi : c2.interval = some i) (ht : now + i = t) :
    (∀ e ∈ (handle_check_event now (.addOrUpdate c2) ⟨q, sh⟩).queue,
        e.2.check.check_name ≠ sc1.check.check_name) ∧
    (t, ⟨c2, t⟩) ∈ (handle_check_event now (.addOrUpdate c2) ⟨q, sh⟩).queue := by
  have hex : extractFirstByName c2.check_name q = (none, q) :=
    extractFirstByName_no_match hno2
  have hq : (handle_check_event now (.addOrUpdate c2) ⟨q, sh⟩).queue =
      btInsert t ⟨c2, t⟩ q := by
    simp only [handle_check_event, hp, hi, Bool.false_eq_true, if_false, hex, ht]
  rw [hq]
  constructor
  · intro e he
    rcases mem_btInsert_sorted hwf he with h | ⟨hin, hk⟩
    · rw [h]
      exact fun hc => hname hc.symm
    · intro hc
      exact hk (by rw [honly e hin hc])
  · exact self_mem_btInsert _ _ _

/-- Witness for claim C6: an update of check c1 finds the prior entry at
next_run 42 and keeps that next_run; on an empty queue it computes now
plus interval. -/
theorem addOrUpdate_next_run_witness :
    ((extractFirstByName "c1"
        [(42, ⟨⟨false, none, some 9, "c1", none, [], none, none⟩, 42⟩)]).1 =
      some ⟨⟨false, none, some 9, "c1", none, [], none, none⟩, 42⟩) ∧
    ((42, ⟨⟨false, none, some 5, "c1", none, [], none, none⟩, 42⟩) ∈
      (handle_check_event 100
        (.addOrUpdate ⟨false, none, some 5, "c1", none, [], none, none⟩)
        ⟨[(42, ⟨⟨false, none, some 9, "c1", none, [], none, none⟩, 42⟩)], []⟩).queue) ∧
    ((100 + 5, ⟨⟨false, none, some 5, "c1", none, [], none, none⟩, 100 + 5⟩) ∈
      (handle_check_event 100
        (.addOrUpdate ⟨false, none, some 5, "c1", none, [], none, none⟩)
        ⟨[], []⟩).queue) :=
  ⟨by decide,
   (addOrUpdate_next_run ⟨false, none, some 5, "c1", none, [], none, none⟩ 5 100
      ⟨[(42, ⟨⟨false, none, some 9, "c1", none, [], none, none⟩, 42⟩)], []⟩ rfl rfl).1
      ⟨⟨false, none, some 9, "c1", none, [], none, none⟩, 42⟩ (by decide),
   (addOrUpdate_next_run ⟨false, none, some 5, "c1", none, [], none, none⟩ 5 100
      ⟨[], []⟩ rfl rfl).2 (by decide)⟩

/-- Witness for claim C9: check c2 with interval 5 added at instant 2
lands on key 7 and silently evicts check c1's sole entry at key 7. -/
theorem equal_next_run_insert_replaces_witness :
    ((7, ⟨⟨false, none, some 7, "c1", none, [], none, none⟩, 7⟩) ∈
      ([(7, ⟨⟨false, none, some 7, "c1", none, [], none, none⟩, 7⟩)] : SchedQueue)) ∧
    (∀ e ∈ (handle_check_event 2
        (.addOrUpdate ⟨false, none, some 5, "c2", none, [], none, none⟩)
        ⟨[(7, ⟨⟨false, none, some 7, "c1", none, [], none, none⟩, 7⟩)], []⟩).queue,
      e.2.check.check_name ≠ "c1") ∧
    ((7, ⟨⟨false, none, some 5, "c2", none, [], none, none⟩, 7⟩) ∈
      (handle_check_event 2
        (.addOrUpdate ⟨false, none, some 5, "c2", none, [], none, none⟩)
        ⟨[(7, ⟨⟨false, none, some 7, "c1", none, [], none, none⟩, 7⟩)], []⟩).queue) :=
  ⟨by decide,
   (equal_next_run_insert_replaces
      [(7, ⟨⟨false, none, some 7, "c1", none, [], none, none⟩, 7⟩)] [] 7 2 5
      ⟨⟨false, none, some 7, "c1", none, [], none, none⟩, 7⟩
      ⟨false, none, some 5, "c2", none, [], none, none⟩
      (by decide) (by decide) (by decide) (by decide) (by decide) rfl rfl rfl).1,
   (equal_next_run_insert_replaces
      [(7, ⟨⟨false, none, some 7, "c1", none, [], none, none⟩, 7⟩)] [] 7 2 5
      ⟨⟨false, none, some 7, "c1", none, [], none, none⟩, 7⟩
      ⟨false, none, some 5, "c2", none, [], none, none⟩
      (by decide) (by decide) (by decide) (by decide) (by decide) rfl rfl rfl).2⟩

/-- Claim C8: whenever execution of a task completes with a result, the
runner's per-task block orders its effects so that the XACK of the task
occurs strictly before any XADD of the result: no acknowledgement ever
comes after a result publication. -/
theorem ack_precedes_publish (id : String) (check : PinglowCheck) (env : RunnerEnv)
    (r : CheckResult) (hr : execute_check check env.exec = .ok r) :
    ∀ i j res a, (runner_task id check env).get? i = some (.xadd res) →
      (runner_task id check env).get? j = some (.xack a) → j < i := by
  intro i j res a hi hj
  unfold runner_task at hi hj
  rw [hr] at hi hj
  by_cases hc : env.conn_ok
  · by_cases hs : env.serialize_ok
    · simp [hc, hs] at hi hj
      rcases i with _ | _ | i <;> rcases j with _ | _ | j <;> simp_all
    · simp [hc, hs] at hi hj
      rcases i with _ | _ | i <;> simp_all
  · simp [hc] at hi hj
    rcases i with _ | i <;> simp_all

/-- Witness for claim C8: a completed execution leads to the effect list
XACK then XADD, and the ordering statement applies to it. -/
theorem ack_precedes_publish_witness :
    (execute_check ⟨false, some ⟨.Bash, "exit 0", none⟩, some 5, "c1", none, [], none, none⟩
        (RunnerEnv.mk ⟨true, true, "", true, "", some 0, "OK out", true, 7⟩ true true).exec =
      .ok ⟨"c1", "OK out", .Ok, some 7, [], none, none⟩) ∧
    (runner_task "1-0" ⟨false, some ⟨.Bash, "exit 0", none⟩, some 5, "c1", none, [], none, none⟩
        (RunnerEnv.mk ⟨true, true, "", true, "", some 0, "OK out", true, 7⟩ true true) =
      [.xack "1-0", .xadd ⟨"c1", "OK out", .Ok, some 7, [], none, none⟩]) ∧
    (∀ i j res a,
      (runner_task "1-0"
          ⟨false, some ⟨.Bash, "exit 0", none⟩, some 5, "c1", none, [], none, none⟩
          (RunnerEnv.mk ⟨true, true, "", true, "", some 0, "OK out", true, 7⟩ true true)).get? i =
        some (.xadd res) →
      (runner_task "1-0"
          ⟨false, some ⟨.Bash, "exit 0", none⟩, some 5, "c1", none, [], none, none⟩
          (RunnerEnv.mk ⟨true, true, "", true, "", some 0, "OK out", true, 7⟩ true true)).get? j =
        some (.xack a) → j < i) :=
  ⟨rfl, by decide,
   ack_precedes_publish "1-0"
     ⟨false, some ⟨.Bash, "exit 0", none⟩, some 5, "c1", none, [], none, none⟩
     (RunnerEnv.mk ⟨true, true, "", true, "", some 0, "OK out", true, 7⟩ true true)
     ⟨"c1", "OK out", .Ok, some 7, [], none, none⟩ rfl⟩

/-- Unfolding: running no steps publishes nothing. -/
theorem schedRun_nil (s : SchedState) : schedRun s [] = [] := rfl

/-- Unfolding: an event step handles the event and continues. -/
theorem schedRun_cons_ev (t : Nat) (e : RunnableCheckEvent) (rest : List TimedOp)
    (s : SchedState) :
    schedRun s (⟨t, .ev e⟩ :: rest) = schedRun (handle_check_event t e s) rest := rfl

/-- Unfolding: a fire step collects the fired publication and continues. -/
theorem schedRun_cons_fire (t : Nat) (rest : List TimedOp) (s : SchedState) :
    schedRun s (⟨t, .fire⟩ :: rest) =
      (fireStep t s).2.toList ++ schedRun (fireStep t s).1 rest := by
  simp only [schedRun]

/-- Per-name publication values of a cons. -/
theorem pubsFor_cons (n : String) (p : Nat × PinglowCheck) (ps : List (Nat × PinglowCheck)) :
    pubsFor n (p :: ps) =
      if p.2.check_name = n then p.1 :: pubsFor n ps else pubsFor n ps := by
  simp only [pubsFor, List.filterMap_cons]
  by_cases h : p.2.check_name = n <;> simp [h]

/-- A sorted step list has a sorted tail, every later step at or after the
head instant. -/
theorem timesSorted_cons {o : TimedOp} {rest : List TimedOp}
    (h : timesSorted (o :: rest) = true) :
    timesSorted rest = true ∧ ∀ o' ∈ rest, o.t ≤ o'.t := by
  induction rest generalizing o with
  | nil => exact ⟨rfl, by simp⟩
  | cons b r ih =>
    unfold timesSorted at h
    rw [Bool.and_eq_true] at h
    obtain ⟨h1, h2⟩ := h
    have hob : o.t ≤ b.t := by simpa using h1
    refine ⟨h2, ?_⟩
    intro o' ho'
    rcases List.mem_cons.mp ho' with he | hm
    · exact he ▸ hob
    · exact le_trans hob ((ih h2).2 o' hm)

/-- Scheduler queue invariant for one check name with a fixed interval:
every queue entry sits at its own next_run as key, every entry for the
name carries the fixed interval, and every entry for the name is at least
one interval past the last published next_run for the name (the lower
bound lb, absent before the first publication). -/
def QueueInv (n : String) (I : Nat) (lb : Option Nat) (s : SchedState) : Prop :=
  (∀ e ∈ s.queue, e.1 = e.2.next_run) ∧
  (∀ e ∈ s.queue, e.2.check.check_name = n → e.2.check.interval = some I) ∧
  (∀ e ∈ s.queue, e.2.check.check_name = n → ∀ p, lb = some p → p + I ≤ e.1)

/-- The queue invariant survives handle_check_event, provided every
AddOrUpdate for the tracked name is non-passive with the fixed interval
and the step instant is past the last publication. -/
theorem QueueInv_handle {n : String} {I : Nat} {lb : Option Nat} {now : Nat}
    {e : RunnableCheckEvent} {s : SchedState}
    (hinv : QueueInv n I lb s)
    (hev : ∀ c, e = .addOrUpdate c → c.check_name = n →
      c.passive = false ∧ c.interval = some I)
    (hlb : ∀ p, lb = some p → p ≤ now) :
    QueueInv n I lb (handle_check_event now e s) := by
  obtain ⟨h1, h2, h3⟩ := hinv
  rcases e with c | m
  · by_cases hpass : c.passive
    · have : handle_check_event now (.addOrUpdate c) s =
          { s with shared := sharedInsert c.check_name c s.shared } := by
        simp only [handle_check_event, hpass, if_true]
      rw [this]
      exact ⟨h1, h2, h3⟩
    · rcases hint : c.interval with _ | i
      · have : handle_check_event now (.addOrUpdate c) s =
            { s with shared := sharedInsert c.check_name c s.shared } := by
          simp only [handle_check_event, hpass, Bool.false_eq_true, if_false, hint]
        rw [this]
        exact ⟨h1, h2, h3⟩
      · have hq : (handle_check_event now (.addOrUpdate c) s).queue =
            btInsert
              (match (extractFirstByName c.check_name s.queue).1 with
               | some removed => removed.next_run
               | none => now + i)
              { check := c,
                next_run :=
                  match (extractFirstByName c.check_name s.queue).1 with
                  | some removed => removed.next_run
                  | none => now + i }
              (extractFirstByName c.check_name s.queue).2 := by
          simp only [handle_check_event, hpass, Bool.false_eq_true, if_false, hint]
        refine ⟨?_, ?_, ?_⟩
        · intro x hx
          rw [hq] at hx
          rcases mem_btInsert hx with h | h
          · rw [h]
          · exact h1 x (mem_extractFirstByName h)
        · intro x hx hxn
          rw [hq] at hx
          rcases mem_btInsert hx with h | h
          · by_cases hcn : c.check_name = n
            · rw [h]
              exact (hev c rfl hcn).2
            · rw [h] at hxn
              exact absurd hxn hcn
          · exact h2 x (mem_extractFirstByName h) hxn
        · intro x hx hxn p hp
          rw [hq] at hx
          rcases mem_btInsert hx with h | h
          · by_cases hcn : c.check_name = n
            · have hiI : i = I := by
                have := (hev c rfl hcn).2
                rw [hint] at this
                injection this
              rcases hrem : (extractFirstByName c.check_name s.queue).1 with _ | sc
              · rw [h, hrem]
                have := hlb p hp
                simp only [hiI]
                omega
              · obtain ⟨hscn, k, hk⟩ := extractFirstByName_some hrem
                have hkey : k = sc.next_run := h1 (k, sc) hk
                have hbound := h3 (k, sc) hk (by rw [hscn, hcn]) p hp
                rw [h, hrem]
                simp only
                omega
            · rw [h] at hxn
              exact absurd hxn hcn
          · exact h3 x (mem_extractFirstByName h) hxn p hp
  · refine ⟨?_, ?_, ?_⟩
    · intro x hx
      have hx' : x ∈ s.queue := by
        simp only [handle_check_event] at hx
        exact (List.mem_filter.mp hx).1
      exact h1 x hx'
    · intro x hx hxn
      have hx' : x ∈ s.queue := by
        simp only [handle_check_event] at hx
        exact (List.mem_filter.mp hx).1
      exact h2 x hx' hxn
    · intro x hx hxn p hp
      have hx' : x ∈ s.queue := by
        simp only [handle_check_event] at hx
        exact (List.mem_filter.mp hx).1
      exact h3 x hx' hxn p hp

/-- Chain lemma for the scheduler trace: under sorted step instants and
fixed-interval AddOrUpdate events for the tracked name, the published
next_run values for the name, prefixed with the last published value when
one exists, ascend in steps of at least the interval. -/
theorem schedRun_chain (n : String) (I : Nat) :
    ∀ (ops : List TimedOp) (s : SchedState) (lb : Option Nat) (t0 : Nat),
      timesSorted ops = true →
      (∀ o ∈ ops, t0 ≤ o.t) →
      (∀ o ∈ ops, addEventOk n I o = true) →
      QueueInv n I lb s →
      (∀ p, lb = some p → p ≤ t0) →
      List.Chain' (fun a b => a + I ≤ b) (lb.toList ++ pubsFor n (schedRun s ops)) := by
  intro ops
  induction ops with
  | nil =>
    intro s lb t0 _ _ _ _ _
    rw [schedRun_nil]
    rcases lb with _ | p <;> simp [pubsFor]
  | cons o rest ih =>
    intro s lb t0 hts hta hok hinv hlb
    obtain ⟨hts', hta'⟩ := timesSorted_cons hts
    have hot : t0 ≤ o.t := hta o (by simp)
    have hlbt : ∀ p, lb = some p → p ≤ o.t := fun p hp => le_trans (hlb p hp) hot
    have hok' : ∀ o' ∈ rest, addEventOk n I o' = true := fun o' h => hok o' (by simp [h])
    rcases o with ⟨t, op⟩
    rcases op with e | _
    · rw [schedRun_cons_ev]
      refine ih (handle_check_event t e s) lb t hts' hta' hok' ?_ hlbt
      refine QueueInv_handle hinv ?_ hlbt
      intro c hce hcn
      have hb := hok ⟨t, .ev e⟩ (by simp)
      rw [hce] at hb
      simp only [addEventOk, hcn, if_pos, Bool.and_eq_true, Bool.not_eq_true',
        decide_eq_true_eq] at hb
      exact hb
    · rw [schedRun_cons_fire]
      obtain ⟨h1, h2, h3⟩ := hinv
      rcases hq : s.queue with _ | ⟨⟨k, sc⟩, tail⟩
      · have hf : fireStep t s = (s, none) := by simp [fireStep, hq]
        rw [hf]
        exact ih s lb t hts' hta' hok' ⟨h1, h2, h3⟩ hlbt
      · by_cases hlt : t < k
        · have hf : fireStep t s = (s, none) := by simp [fireStep, hq, hlt]
          rw [hf]
          exact ih s lb t hts' hta' hok' ⟨h1, h2, h3⟩ hlbt
        · by_cases hcont : sharedContainsKey s.shared sc.check.check_name = true
          · rcases hsi : sc.check.interval with _ | i
            · have hf : fireStep t s = (s, none) := by simp [fireStep, hq, hlt, hcont, hsi]
              rw [hf]
              exact ih s lb t hts' hta' hok' ⟨h1, h2, h3⟩ hlbt
            · have hheadmem : ((k, sc) : Nat × ScheduledCheck) ∈ s.queue := by
                rw [hq]
                exact List.mem_cons_self _ _
              have hknr : k = sc.next_run := h1 _ hheadmem
              have hkt : k ≤ t := Nat.not_lt.mp hlt
              have hf : fireStep t s =
                  ({ queue := btInsert (sc.next_run + i) { sc with next_run := sc.next_run + i }
                       (((k, sc) :: tail).filter
                         (fun e => e.2.check.check_name ≠ sc.check.check_name)),
                     shared := s.shared }, some (sc.next_run, sc.check)) := by
                simp [fireStep, hq, hlt, hcont, hsi]
              have hfilter : ∀ x, x ∈ (((k, sc) :: tail).filter
                  (fun e => e.2.check.check_name ≠ sc.check.check_name)) →
                  x ∈ s.queue ∧ x.2.check.check_name ≠ sc.check.check_name := by
                intro x hx
                obtain ⟨hm, hpred⟩ := List.mem_filter.mp hx
                refine ⟨by rw [hq]; exact hm, by simpa using hpred⟩
              rw [hf]
              simp only [Option.toList, List.singleton_append]
              rw [pubsFor_cons]
              by_cases hn : sc.check.check_name = n
              · have hiI : i = I := by
                  have h' := h2 _ hheadmem hn
                  rw [hsi] at h'
                  injection h'
                rw [if_pos hn]
                have hinv' : QueueInv n I (some sc.next_run)
                    { queue := btInsert (sc.next_run + i) { sc with next_run := sc.next_run + i }
                        (((k, sc) :: tail).filter
                          (fun e => e.2.check.check_name ≠ sc.check.check_name)),
                      shared := s.shared } := by
                  refine ⟨?_, ?_, ?_⟩
                  · intro x hx
                    rcases mem_btInsert hx with h | h
                    · rw [h]
                    · exact h1 x (hfilter x h).1
                  · intro x hx hxn
                    rcases mem_btInsert hx with h | h
                    · rw [h]
                      rw [hsi, hiI]
                    · exact absurd (hxn.trans hn.symm) (hfilter x h).2
                  · intro x hx hxn p hp
                    rcases mem_btInsert hx with h | h
                    · rw [h]
                      injection hp with hp'
                      simp only [← hp', hiI]
                      omega
                    · exact absurd (hxn.trans hn.symm) (hfilter x h).2
                have hlb'' : ∀ p, (some sc.next_run : Option Nat) = some p → p ≤ t := by
                  intro p hp
                  injection hp with hp'
                  omega
                have hch := ih _ (some sc.next_run) t hts' hta' hok' hinv' hlb''
                simp only [Option.toList, List.singleton_append] at hch
                rcases lb with _ | p
                · simpa using hch
                · simp only [Option.toList, List.singleton_append, List.cons_append,
                    List.nil_append]
                  rw [List.chain'_cons]
                  refine ⟨?_, hch⟩
                  have hb := h3 _ hheadmem hn p rfl
                  omega
              · rw [if_neg hn]
                have hinv' : QueueInv n I lb
                    { queue := btInsert (sc.next_run + i) { sc with next_run := sc.next_run + i }
                        (((k, sc) :: tail).filter
                          (fun e => e.2.check.check_name ≠ sc.check.check_name)),
                      shared := s.shared } := by
                  refine ⟨?_, ?_, ?_⟩
                  · intro x hx
                    rcases mem_btInsert hx with h | h
                    · rw [h]
                    · exact h1 x (hfilter x h).1
                  · intro x hx hxn
                    rcases mem_btInsert hx with h | h
                    · rw [h] at hxn
                      exact absurd hxn hn
                    · exact h2 x (hfilter x h).1 hxn
                  · intro x hx hxn p hp
                    rcases mem_btInsert hx with h | h
                    · rw [h] at hxn
                      exact absurd hxn hn
                    · exact h3 x (hfilter x h).1 hxn p hp
                exact ih _ lb t hts' hta' hok' hinv' hlbt
          · have hf : fireStep t s = (s, none) := by simp [fireStep, hq, hlt, hcont]
            rw [hf]
            exact ih s lb t hts' hta' hok' ⟨h1, h2, h3⟩ hlbt

/-- Claim C5: a timer fire removes the check's queue entry, publishes the
task, and re-inserts the entry with next_run advanced by exactly the
check's interval rather than recomputed from the current time; therefore,
along any scheduler trace with non-decreasing instants whose AddOrUpdate
events for a check carry a fixed interval, the next_run values of the
tasks published for that check are monotonically non-decreasing with step
at least the interval. -/
theorem scheduler_monotone_schedule (n : String) (I : Nat) (ops : List TimedOp)
    (hsorted : timesSorted ops = true)
    (hevents : ∀ o ∈ ops, addEventOk n I o = true) :
    List.Chain' (fun a b => a + I ≤ b)
      (pubsFor n (schedRun { queue := [], shared := [] } ops)) ∧
    ∀ (now k i : Nat) (s : SchedState) (sc : ScheduledCheck) (tail : SchedQueue),
      s.queue = (k, sc) :: tail → ¬ now < k →
      sharedContainsKey s.shared sc.check.check_name = true →
      sc.check.interval = some i →
      fireStep now s =
        ({ queue := btInsert (sc.next_run + i) { sc with next_run := sc.next_run + i }
             (((k, sc) :: tail).filter
               (fun e => e.2.check.check_name ≠ sc.check.check_name)),
           shared := s.shared }, some (sc.next_run, sc.check)) := by
  constructor
  · have h := schedRun_chain n I ops { queue := [], shared := [] } none 0 hsorted
      (by simp) hevents ⟨by simp, by simp, by simp⟩ (by simp)
    simpa using h
  · intro now k i s sc tail hq hlt hcont hsi
    simp [fireStep, hq, hlt, hcont, hsi]

/-- Witness for claim C5: check c1 with interval 5 added at instant 0 is
scheduled for 5; fires at instants 7 and 12 publish next_run values 5 and
then exactly 10, an ascending chain with step 5, and the fire equation
holds at the intermediate state. -/
theorem scheduler_monotone_schedule_witness :
    (timesSorted
      [⟨0, .ev (.addOrUpdate ⟨false, none, some 5, "c1", none, [], none, none⟩)⟩,
       ⟨7, .fire⟩, ⟨12, .fire⟩] = true) ∧
    (pubsFor "c1" (schedRun { queue := [], shared := [] }
      [⟨0, .ev (.addOrUpdate ⟨false, none, some 5, "c1", none, [], none, none⟩)⟩,
       ⟨7, .fire⟩, ⟨12, .fire⟩]) = [5, 10]) ∧
    List.Chain' (fun a b => a + 5 ≤ b)
      (pubsFor "c1" (schedRun { queue := [], shared := [] }
        [⟨0, .ev (.addOrUpdate ⟨false, none, some 5, "c1", none, [], none, none⟩)⟩,
         ⟨7, .fire⟩, ⟨12, .fire⟩])) ∧
    fireStep 7
        { queue := [(5, ⟨⟨false, none, some 5, "c1", none, [], none, none⟩, 5⟩)],
          shared := [("c1", ⟨false, none, some 5, "c1", none, [], none, none⟩)] } =
      ({ queue := btInsert (5 + 5)
            { check := ⟨false, none, some 5, "c1", none, [], none, none⟩, next_run := 5 + 5 }
            (([(5, ⟨⟨false, none, some 5, "c1", none, [], none, none⟩, 5⟩)] :
                SchedQueue).filter
              (fun e => e.2.check.check_name ≠ "c1")),
         shared := [("c1", ⟨false, none, some 5, "c1", none, [], none, none⟩)] },
       some (5, ⟨false, none, some 5, "c1", none, [], none, none⟩)) :=
  ⟨by decide, by decide,
   (scheduler_monotone_schedule "c1" 5
      [⟨0, .ev (.addOrUpdate ⟨false, none, some 5, "c1", none, [], none, none⟩)⟩,
       ⟨7, .fire⟩, ⟨12, .fire⟩] (by decide) (by decide)).1,
   (scheduler_monotone_schedule "c1" 5
      [⟨0, .ev (.addOrUpdate ⟨false, none, some 5, "c1", none, [], none, none⟩)⟩,
       ⟨7, .fire⟩, ⟨12, .fire⟩] (by decide) (by decide)).2 7 5 5
      { queue := [(5, ⟨⟨false, none, some 5, "c1", none, [], none, none⟩, 5⟩)],
        shared := [("c1", ⟨false, none, some 5, "c1", none, [], none, none⟩)] }
      ⟨⟨false, none, some 5, "c1", none, [], none, none⟩, 5⟩ [] rfl (by decide) (by decide) rfl⟩
